import Mathlib

/-
Verification of the declarative-controller-runtime core against its
specification.  The Go sources are shallowly embedded:

* unstructured documents (`map[string]any` / JSON values) become the
  inductive `Value` type, with Go maps modelled as association lists and
  `float64` modelled as `Rat` (no claim under scrutiny depends on binary
  floating-point rounding);
* JSON documents handled by `encoding/json` become the inductive `Json`
  type; integer-formatted and float-formatted number tokens are kept
  distinct because `json.Unmarshal` into `int64` succeeds exactly for the
  former;
* recursive Go functions over these nested trees are embedded with an
  explicit fuel parameter (first `Nat` argument) so that every definition
  is executable and kernel-reducible; fuel exhaustion is a distinguished
  outcome never reached at sufficient fuel;
* fallible Go code returns `Option`/`Except`; `error` values are modelled
  as `String` tags (the exact Go message text is abbreviated where it
  embeds serialized expressions).

Functions whose Go sources are available are translated from them
(pkg/controller/controller.go, pkg/controller/status_reporter.go,
pkg/cache/fake_cache.go, pkg/pipeline/expression.go).  Helper types and
functions of the repository that the available sources call but whose own
definitions are not available (the `as*` coercion helpers, JSON-path
resolution, label matching, and the `Target`/`Source`/`Pipeline`/`Delta`
record types) are modelled from the specification and are marked
`Modelled from the spec:` in their doc comments.
-/

namespace DCR

/-- Unstructured document values (`pkg/object` objects, `any` values inside
expression evaluation).  Go `map[string]any` is modelled as an association
list, `int64` as `Int`, `float64` as `Rat`. -/
inductive Value where
  | null
  | b (v : Bool)
  | i (v : Int)
  | f (v : Rat)
  | s (v : String)
  | list (l : List Value)
  | dict (m : List (String × Value))

mutual
/-- `pipeline.Expression` (expression.go lines 22-26): discriminated tree
node with operator, optional child expression and optional literal. -/
inductive Expression where
  | mk (op : String) (arg : Option Expression) (lit : Option Lit)

/-- Shapes the `Literal any` field of `pipeline.Expression` takes for
parsed expressions (bool / int64 / float64 / string / []Expression /
map[string]Expression), from expression.go `UnmarshalJSON`. -/
inductive Lit where
  | b (v : Bool)
  | i (v : Int)
  | f (v : Rat)
  | s (v : String)
  | elist (es : List Expression)
  | emap (kvs : List (String × Expression))
end

/-- Projection of the `Op` field of `pipeline.Expression`. -/
def Expression.op : Expression → String
  | .mk o _ _ => o

/-- Projection of the `Arg` field of `pipeline.Expression`. -/
def Expression.arg : Expression → Option Expression
  | .mk _ a _ => a

/-- Projection of the `Literal` field of `pipeline.Expression`. -/
def Expression.lit : Expression → Option Lit
  | .mk _ _ l => l

/- ----------------------------------------------------------------- -/
/- pkg/cache/fake_cache.go                                            -/
/- ----------------------------------------------------------------- -/

/-- Lookup key `(namespace, name)` of an object (`client.ObjectKey`). -/
abbrev ObjectKey := String × String

/-- `FakeRuntimeCache` (fake_cache.go): a client that can store only a
single object.  Only the store is modelled; the informer bookkeeping has no
bearing on `Get`/`Upsert`/`Delete`. -/
structure FakeRuntimeCache where
  Store : Option Value

/-- `FakeRuntimeCache.Get` (fake_cache.go lines 114-123): if the store is
non-empty the stored object is deep-copied into `obj` — the lookup `key` is
not consulted; otherwise a NotFound error naming the key is returned.
Deep-copying into the caller's object is modelled by returning the stored
value (values are immutable in the embedding). -/
def FakeRuntimeCache.Get (c : FakeRuntimeCache) (key : ObjectKey) : Except String Value :=
  match c.Store with
  | some o => .ok o
  | none => .error ("NotFound: " ++ key.1 ++ "/" ++ key.2)

/-- `FakeRuntimeCache.Upsert` (fake_cache.go lines 133-136): stores a deep
copy of the object, replacing whatever was stored. -/
def FakeRuntimeCache.Upsert (_c : FakeRuntimeCache) (obj : Value) : FakeRuntimeCache :=
  ⟨some obj⟩

/-- `FakeRuntimeCache.Delete` (fake_cache.go lines 138-141): empties the
store regardless of which object is passed. -/
def FakeRuntimeCache.Delete (_c : FakeRuntimeCache) (_obj : Value) : FakeRuntimeCache :=
  ⟨none⟩

/- ----------------------------------------------------------------- -/
/- pkg/controller/status_reporter.go                                  -/
/- ----------------------------------------------------------------- -/

/-- `ErrorReporterStackSize` (status_reporter.go): depth of the LIFO error
buffer. -/
def ErrorReporterStackSize : Nat := 10

/-- `TrimPrefixSuffixLen` (status_reporter.go): number of characters the
code intends to retain at the prefix and the suffix of long strings. -/
def TrimPrefixSuffixLen : Nat := 120

/-- `errorReporter` (status_reporter.go): the error stack plus the one-shot
critical flag.  The rate limiter and the status channel only govern
notification side effects and are not part of the stack state. -/
structure ErrorReporter where
  errorStack : List String
  critical : Bool

/-- `NewErrorReporter` (status_reporter.go line 33). -/
def NewErrorReporter : ErrorReporter :=
  ⟨[], false⟩

/-- `errorReporter.Push` (status_reporter.go lines 46-61): on a full stack
the entries are shifted left (evicting the oldest) and the new error is
written at the end; otherwise the error is appended.  The `critical`
parameter does not influence the stack. -/
def ErrorReporter.Push (s : ErrorReporter) (err : String) (_critical : Bool) : ErrorReporter :=
  if s.errorStack.length = ErrorReporterStackSize then
    { s with errorStack := s.errorStack.tail ++ [err] }
  else
    { s with errorStack := s.errorStack ++ [err] }

/-- `errorReporter.PushError` (status_reporter.go lines 37-39). -/
def ErrorReporter.PushError (s : ErrorReporter) (err : String) : ErrorReporter :=
  s.Push err false

/-- `errorReporter.PushCriticalError` (status_reporter.go lines 41-44):
sets the critical flag, then pushes. -/
def ErrorReporter.PushCriticalError (s : ErrorReporter) (err : String) : ErrorReporter :=
  ErrorReporter.Push { s with critical := true } err true

/-- `errorReporter.Pop` (status_reporter.go lines 63-68). -/
def ErrorReporter.Pop (s : ErrorReporter) : ErrorReporter :=
  if s.errorStack.isEmpty then s
  else { s with errorStack := s.errorStack.dropLast }

/-- `errorReporter.Top` (status_reporter.go lines 70-75): the most recently
pushed error, `none` when empty (Go returns `nil`). -/
def ErrorReporter.Top (s : ErrorReporter) : Option String :=
  s.errorStack.getLast?

/-- `errorReporter.Size` (status_reporter.go lines 77-79). -/
def ErrorReporter.Size (s : ErrorReporter) : Nat :=
  s.errorStack.length

/-- `errorReporter.IsEmpty` (status_reporter.go lines 81-83). -/
def ErrorReporter.IsEmpty (s : ErrorReporter) : Bool :=
  s.errorStack.length = 0

/-- One call against the reporter, for stating properties of arbitrary
operation sequences. -/
inductive ReporterOp where
  | push (err : String) (critical : Bool)
  | pushError (err : String)
  | pushCriticalError (err : String)
  | pop

/-- Apply one reporter operation. -/
def applyReporterOp (s : ErrorReporter) : ReporterOp → ErrorReporter
  | .push err critical => s.Push err critical
  | .pushError err => s.PushError err
  | .pushCriticalError err => s.PushCriticalError err
  | .pop => s.Pop

/-- Run a sequence of reporter operations. -/
def runReporterOps (s : ErrorReporter) (ops : List ReporterOp) : ErrorReporter :=
  ops.foldl applyReporterOp s

/-- `trim` (status_reporter.go lines 101-107), on byte strings modelled as
character lists (all inputs of interest are ASCII, where Go's byte indexing
and character indexing agree).  Note the code keeps
`s[0 : TrimPrefixSuffixLen-1]`, i.e. 119 characters of prefix. -/
def trim (s : List Char) : List Char :=
  if s.length ≤ 2 * TrimPrefixSuffixLen + 5 then s
  else
    s.take (TrimPrefixSuffixLen - 1) ++ "[...]".toList ++ s.drop (s.length - TrimPrefixSuffixLen)

/- ----------------------------------------------------------------- -/
/- pkg/controller/controller.go — construction-time sanity checks     -/
/- ----------------------------------------------------------------- -/

/-- Modelled from the spec: a resource identifier `{apiGroup, kind}` (the
`Resource` type referenced by `Source`/`Target` is not among the available
sources; §6 of the spec gives its fields). -/
structure Resource where
  apiGroup : String
  kind : String
deriving DecidableEq

/-- Modelled from the spec: a watch source `{apiGroup, kind}` (the `Source`
type itself is not among the available sources). -/
structure Source where
  resource : Resource
deriving DecidableEq

/-- Modelled from the spec: the write target `{apiGroup, kind, type}` (the
`Target` type itself is not among the available sources).  `New` compares
it against the zero value `Target{}`. -/
structure Target where
  resource : Resource
  typ : String
deriving DecidableEq

/-- The zero value `Target{}` used by the emptiness check in `New`. -/
def emptyTarget : Target :=
  ⟨⟨"", ""⟩, ""⟩

/-- Modelled from the spec: the `pipeline.Pipeline` type (not among the
available sources) — an optional `@join` condition plus `@aggregate`
stages; `New` only consults whether `Join` is nil. -/
structure Pipeline where
  join : Option Expression
  aggregate : List Expression

/-- `controller.Config` (controller.go lines 26-33). -/
structure Config where
  sources : List Source
  pipeline : Pipeline
  target : Target

/-- The construction-time sanity checks of `New` (controller.go lines
64-76), in source order: no sources, empty target, multiple sources
without a `@join`.  `New` returns the first failing check's error and the
controller is never registered with the manager (everything in `New` after
these checks, including `mgr.Add`, is unreachable on failure). -/
def sanityCheck (config : Config) : Option String :=
  if config.sources.length = 0 then
    some "no source"
  else if config.target = emptyTarget then
    some "no target"
  else if 1 < config.sources.length ∧ config.pipeline.join.isNone then
    some "controllers defined on multiple base resources must specify a Join in the pipeline"
  else
    none

/- ----------------------------------------------------------------- -/
/- pkg/controller/controller.go — request processing and Start loop   -/
/- ----------------------------------------------------------------- -/

/-- Delta event types (`cache.Added` etc., referenced by controller.go).
Modelled from the spec: `type ∈ {Added, Updated, Replaced, Deleted, Sync}`. -/
inductive EventType where
  | Added
  | Updated
  | Replaced
  | Deleted
  | Sync
deriving DecidableEq

/-- Modelled from the spec: `cache.Delta`, a pair of an event type and an
object (the `Delta` type is not among the available sources). -/
structure Delta where
  typ : EventType
  object : Value

/-- Modelled from the spec: a watch `Request` as consumed by
`processRequest` (GVK + namespace + name + event type; the `Request` type
is not among the available sources, its fields are read in
controller.go lines 182-186). -/
structure Request where
  gvk : String
  nspace : String
  name : String
  eventType : EventType

/-- The delta-write loop of `processRequest` (controller.go lines
205-213): deltas are written in order; on the first failing
`target.Write` the error is returned immediately.  The result pairs the
deltas for which `Write` was invoked with the aborting error, if any. -/
def writeDeltas (write : Delta → Option String) : List Delta → List Delta × Option String
  | [] => ([], none)
  | d :: ds =>
    match write d with
    | some e => ([d], some e)
    | none =>
      let r := writeDeltas write ds
      (d :: r.1, r.2)

/-- `processRequest` (controller.go lines 179-216) with the object fetch
abstracted into the pipeline-evaluation function: on a pipeline error the
request is abandoned with that error and no delta is written; otherwise
the resulting deltas are written by `writeDeltas`. -/
def processRequestModel (evalPipeline : Request → Except String (List Delta))
    (write : Delta → Option String) (r : Request) : List Delta × Option String :=
  match evalPipeline r with
  | .error e => ([], some e)
  | .ok ds => writeDeltas write ds

/-- One iteration input of the `select` in `Controller.Start`: either a
request received on the watcher channel or the context's cancellation. -/
inductive ControllerEvent where
  | req (r : Request)
  | done

/-- `Controller.Start` (controller.go lines 159-177), sequentialized over
the stream of select outcomes: each received request is handed to the
processor; a processor error is only logged (recorded in the trace) and
the loop continues; the loop returns (with a nil error) exactly when the
context is cancelled.  The result is the trace of processed requests with
their outcomes. -/
def startLoop (process : Request → List Delta × Option String) :
    List ControllerEvent → List (Request × (List Delta × Option String))
  | [] => []
  | .done :: _ => []
  | .req r :: rest => (r, process r) :: startLoop process rest

/- ----------------------------------------------------------------- -/
/- pkg/pipeline/expression.go — JSON encoding                         -/
/- ----------------------------------------------------------------- -/

/-- JSON documents as consumed and produced by `encoding/json`.  Number
tokens in integer format (`2`) and in float format (`2.0`, `1e3`) are kept
apart: `json.Unmarshal` into `int64` succeeds exactly for the former.
Objects are association lists (documents with duplicate keys are outside
the scope of the model). -/
inductive Json where
  | null
  | bool (b : Bool)
  | jint (n : Int)
  | jfloat (q : Rat)
  | str (s : String)
  | arr (elems : List Json)
  | obj (fields : List (String × Json))

/-- Whether a Go string's first byte is `'@'` (`string(op[0]) == "@"`). -/
def startsWithAt (s : String) : Bool :=
  match s.data with
  | [] => false
  | c :: _ => c = '@'

/-- Element-wise decoding of a JSON array into `[]Expression`
(`json.Unmarshal(b, &mv)` with `mv : []Expression` calls
`Expression.UnmarshalJSON` on every element; the whole decode fails if any
element fails). -/
def parseArrWith (p : Json → Option Expression) : List Json → Option (List Expression)
  | [] => some []
  | j :: js =>
    match p j, parseArrWith p js with
    | some e, some l => some (e :: l)
    | _, _ => none

/-- Value-wise decoding of a JSON object into `map[string]Expression`. -/
def parseObjWith (p : Json → Option Expression) :
    List (String × Json) → Option (List (String × Expression))
  | [] => some []
  | (k, j) :: js =>
    match p j, parseObjWith p js with
    | some e, some l => some ((k, e) :: l)
    | _, _ => none

/-- `Expression.UnmarshalJSON` (expression.go lines 807-867), with fuel for
the nested recursion.  The decoding attempts run in source order: bool,
int64, float64, non-empty string, `[]Expression`, `map[string]Expression`;
a JSON `null` is accepted by the very first attempt because
`json.Unmarshal` of `null` into a Go `bool` is a no-op that reports no
error, yielding the `@bool false` terminal.  A single-key object whose key
starts with `@` becomes that operator with its decoded argument; any other
object becomes a `@dict` literal.  `none` is the unmarshal error. -/
def unmarshalJSON : Nat → Json → Option Expression
  | 0, _ => none
  | n + 1, j =>
    match j with
    | .null => some (.mk "@bool" none (some (.b false)))
    | .bool b => some (.mk "@bool" none (some (.b b)))
    | .jint k => some (.mk "@int" none (some (.i k)))
    | .jfloat q => some (.mk "@float" none (some (.f q)))
    | .str s => if s ≠ "" then some (.mk "@string" none (some (.s s))) else none
    | .arr es =>
      (parseArrWith (unmarshalJSON n) es).map (fun l => .mk "@list" none (some (.elist l)))
    | .obj fs =>
      match parseObjWith (unmarshalJSON n) fs with
      | none => none
      | some kvs =>
        match kvs with
        | [(op, exp)] =>
          if startsWithAt op then some (.mk op (some exp) none)
          else some (.mk "@dict" none (some (.emap kvs)))
        | _ => some (.mk "@dict" none (some (.emap kvs)))

/-- How `json.Marshal` renders a Go `float64`: integral values print
without fraction or exponent, i.e. as an integer token (`2.0` marshals to
`2`). -/
def floatToken (q : Rat) : Json :=
  if q.isInt then .jint q.num else .jfloat q

/-- Element-wise marshalling of `[]Expression` (`json.Marshal` calls each
element's `MarshalJSON`). -/
def marshalArrWith (m : Expression → Option Json) : List Expression → Option (List Json)
  | [] => some []
  | e :: es =>
    match m e, marshalArrWith m es with
    | some j, some l => some (j :: l)
    | _, _ => none

/-- Value-wise marshalling of `map[string]Expression`. -/
def marshalObjWith (m : Expression → Option Json) :
    List (String × Expression) → Option (List (String × Json))
  | [] => some []
  | (k, e) :: es =>
    match m e, marshalObjWith m es with
    | some j, some l => some ((k, j) :: l)
    | _, _ => none

/-- `json.Marshal` of the raw `Literal any` value, as done by the `@any`
case of `MarshalJSON` (a nil literal marshals to `null`). -/
def marshalLitRaw (m : Expression → Option Json) : Lit → Option Json
  | .b b => some (.bool b)
  | .i n => some (.jint n)
  | .f q => some (floatToken q)
  | .s s => some (.str s)
  | .elist es => (marshalArrWith m es).map .arr
  | .emap kvs => (marshalObjWith m kvs).map .obj

/-- `Expression.MarshalJSON` (expression.go lines 869-960), with fuel for
the nested recursion.  Cases in source order: `@any` marshals the raw
literal (so a parsed `@any`, whose literal is nil, marshals to `null`);
the four scalar terminals keep the op as a single-key object when an
argument is present and otherwise marshal the coerced literal (an
integral `@float` literal is rendered by `json.Marshal` as an integer
token); `@list`/`@dict` with an argument marshal just the argument,
dropping the op; any other op starting with `@` becomes a single-key
object (a nil argument marshals to `null`); an op not starting with `@`
is an error (`none`). -/
def marshalJSON : Nat → Expression → Option Json
  | 0, _ => none
  | n + 1, e =>
    if e.op = "@any" then
      match e.lit with
      | none => some .null
      | some l => marshalLitRaw (marshalJSON n) l
    else if e.op = "@bool" then
      match e.arg with
      | some a => (marshalJSON n a).map (fun j => .obj [(e.op, j)])
      | none =>
        match e.lit with
        | some (.b b) => some (.bool b)
        | _ => none
    else if e.op = "@int" then
      match e.arg with
      | some a => (marshalJSON n a).map (fun j => .obj [(e.op, j)])
      | none =>
        match e.lit with
        | some (.i k) => some (.jint k)
        | _ => none
    else if e.op = "@float" then
      match e.arg with
      | some a => (marshalJSON n a).map (fun j => .obj [(e.op, j)])
      | none =>
        match e.lit with
        | some (.f q) => some (floatToken q)
        | some (.i k) => some (.jint k)
        | _ => none
    else if e.op = "@string" then
      match e.arg with
      | some a => (marshalJSON n a).map (fun j => .obj [(e.op, j)])
      | none =>
        match e.lit with
        | some (.s s) => some (.str s)
        | _ => none
    else if e.op = "@list" then
      match e.arg with
      | some a => marshalJSON n a
      | none =>
        match e.lit with
        | some (.elist es) => (marshalArrWith (marshalJSON n) es).map .arr
        | _ => none
    else if e.op = "@dict" then
      match e.arg with
      | some a => marshalJSON n a
      | none =>
        match e.lit with
        | some (.emap kvs) => (marshalObjWith (marshalJSON n) kvs).map .obj
        | _ => none
    else if startsWithAt e.op then
      match e.arg with
      | none => some (.obj [(e.op, .null)])
      | some a => (marshalJSON n a).map (fun j => .obj [(e.op, j)])
    else none

/- ----------------------------------------------------------------- -/
/- pkg/pipeline/expression.go — evaluation                            -/
/- ----------------------------------------------------------------- -/

/-- `evalCtx` (expression.go lines 17-20): the full top-level document and
the element currently iterated by a higher-order op (`nil` outside
iterations, modelled as `none`).  The logger carries no semantics. -/
structure EvalCtx where
  object : Value
  subject : Option Value

/-- Modelled from the spec: coercion helper `asBool` — accepts a boolean
value (ill-typed coercion is an error). -/
def asBool : Value → Except String Bool
  | .b b => .ok b
  | _ => .error "expected a boolean"

/-- Modelled from the spec: coercion helper `asInt` — accepts an int64
value. -/
def asInt : Value → Except String Int
  | .i n => .ok n
  | _ => .error "expected an integer"

/-- Modelled from the spec: coercion helper `asFloat` — accepts a float64,
widening an int64 per the numeric coercion rule. -/
def asFloat : Value → Except String Rat
  | .f q => .ok q
  | .i n => .ok (n : Rat)
  | _ => .error "expected a float"

/-- Modelled from the spec: coercion helper `asString`. -/
def asString : Value → Except String String
  | .s s => .ok s
  | _ => .error "expected a string"

/-- Modelled from the spec: coercion helper `asList`. -/
def asList : Value → Except String (List Value)
  | .list l => .ok l
  | _ => .error "expected a list"

/-- Modelled from the spec: coercion helper `asBoolList` — a list whose
every element coerces to bool. -/
def asBoolList (v : Value) : Except String (List Bool) := do
  let l ← asList v
  l.mapM asBool

/-- Modelled from the spec: coercion helper `asStringList`. -/
def asStringList (v : Value) : Except String (List String) := do
  let l ← asList v
  l.mapM asString

/-- Try reading every element of a list as an int64. -/
def allInts : List Value → Option (List Int)
  | [] => some []
  | .i n :: rest => (allInts rest).map (n :: ·)
  | _ :: _ => none

/-- Try reading every element of a list as a number, widening to float64. -/
def allNums : List Value → Option (List Rat)
  | [] => some []
  | .i n :: rest => (allNums rest).map ((n : Rat) :: ·)
  | .f q :: rest => (allNums rest).map (q :: ·)
  | _ :: _ => none

/-- Modelled from the spec: coercion helper `asIntOrFloatList` — the
numeric coercion rule: if every element is an int64 the list stays
integral, otherwise every element is widened to float64; a non-numeric
element is an error. -/
def asIntOrFloatList (v : Value) : Except String (Sum (List Int) (List Rat)) := do
  let l ← asList v
  match allInts l with
  | some is => .ok (.inl is)
  | none =>
    match allNums l with
    | some fs => .ok (.inr fs)
    | none => .error "expected a list of numbers"

/-- Modelled from the spec: coercion helper `asBinaryIntOrFloatList` —
`asIntOrFloatList` restricted to exactly two elements. -/
def asBinaryIntOrFloatList (v : Value) : Except String (Sum (Int × Int) (Rat × Rat)) := do
  match ← asIntOrFloatList v with
  | .inl [x, y] => .ok (.inl (x, y))
  | .inr [x, y] => .ok (.inr (x, y))
  | _ => .error "expected 2 arguments"

/-- Modelled from the spec: coercion helper `asObject` — accepts a
document. -/
def asObject : Value → Except String (List (String × Value))
  | .dict m => .ok m
  | _ => .error "expected an object"

/-- Modelled from the spec: `asExpOrList` — the pair-shaped argument of a
higher-order op: a literal `@list` argument supplies the list of
sub-expressions, any other argument stands for itself. -/
def asExpOrList : Option Expression → Except String (List Expression)
  | none => .error "empty argument list"
  | some a =>
    match a with
    | .mk "@list" none (some (.elist es)) => .ok es
    | _ => .ok [a]

/-- Walk document fields along a path; dereferencing a missing key (or a
non-document) yields `null`. -/
def walkPath : Value → List String → Value
  | v, [] => v
  | v, k :: rest =>
    match v with
    | .dict m => walkPath ((m.lookup k).getD .null) rest
    | _ => walkPath .null rest

/-- Split a character sequence into path components at the dots. -/
def splitCompsAux : List Char → List Char → List String
  | [], acc => [String.mk acc.reverse]
  | '.' :: rest, acc => String.mk acc.reverse :: splitCompsAux rest []
  | c :: rest, acc => splitCompsAux rest (c :: acc)

/-- Split a dotted path body into its components. -/
def splitComps (cs : List Char) : List String :=
  splitCompsAux cs []

/-- Modelled from the spec: `GetJSONPath` — a value that does not begin
with `$` stands for itself; `$` alone resolves to the iterated subject
when one is bound and to the top-level object otherwise; `$.a.b` (and the
`$Kind.path` form, whose kind segment is an ordinary field of the
composite context document) walks fields from that root, a missing key
yielding `null`. -/
def getJSONPath (ctx : EvalCtx) (s : String) : Value :=
  match s.data with
  | '$' :: rest =>
    let root := match ctx.subject with
      | some v => v
      | none => ctx.object
    (match rest with
     | [] => root
     | '.' :: body => walkPath root (splitComps body)
     | body => walkPath root (splitComps body))
  | _ => .s s

/-- Replace-or-append a key in an association-list document. -/
def assocSet : List (String × Value) → String → Value → List (String × Value)
  | [], k, v => [(k, v)]
  | (k', v') :: rest, k, v =>
    if k' = k then (k, v) :: rest else (k', v') :: assocSet rest k v

/-- Set a value at a field path inside a document, creating intermediate
documents as needed. -/
def setPathV : Value → List String → Value → Value
  | _, [], v => v
  | base, k :: rest, v =>
    match base with
    | .dict m => .dict (assocSet m k (setPathV ((m.lookup k).getD .null) rest v))
    | _ => .dict [(k, setPathV .null rest v)]

/-- Modelled from the spec: `SetJSONPath` — a `@dict` key acts as a
setter: evaluating `{"a.b.c": expr}` writes the result at path `a.b.c` in
the constructed document. -/
def setJSONPath (k : String) (v : Value) (m : List (String × Value)) :
    List (String × Value) :=
  match splitComps k.data with
  | [] => m
  | k0 :: rest => assocSet m k0 (setPathV ((m.lookup k0).getD .null) rest v)

/-- `unpackList` (expression.go lines 776-805) at the type it is applied
at (`[]any`, the result list of `@list`): an empty list stays empty; when
the FIRST element is itself a list, that first inner list is returned and
the remaining elements are discarded; otherwise the list is returned
intact.  (The `reflect` branches for non-slice input and statically typed
element kinds are unreachable from the `@list` case.) -/
def unpackList : List Value → List Value
  | [] => []
  | x :: xs =>
    match x with
    | .list inner => inner
    | _ => x :: xs

/-- Element-wise equality with fuel (used by `DeepEqual`). -/
def veqListWith (f : Value → Value → Bool) : List Value → List Value → Bool
  | [], [] => true
  | x :: xs, y :: ys => f x y && veqListWith f xs ys
  | _, _ => false

/-- Field-wise equality with fuel (used by `DeepEqual`). -/
def veqObjWith (f : Value → Value → Bool) :
    List (String × Value) → List (String × Value) → Bool
  | [], [] => true
  | (k, x) :: xs, (k', y) :: ys => k = k' && f x y && veqObjWith f xs ys
  | _, _ => false

/-- Structural value equality with fuel.  Values of different dynamic
types (e.g. int64 vs float64) are never equal, as under
`reflect.DeepEqual`.  (Go map equality ignores entry order; the
association-list model compares fields in order, which agrees with Go on
all documents built in one order.) -/
def veqF : Nat → Value → Value → Bool
  | 0, _, _ => false
  | _ + 1, .null, .null => true
  | _ + 1, .b x, .b y => x = y
  | _ + 1, .i x, .i y => x = y
  | _ + 1, .f x, .f y => x = y
  | _ + 1, .s x, .s y => x = y
  | n + 1, .list l, .list l' => veqListWith (veqF n) l l'
  | n + 1, .dict m, .dict m' => veqObjWith (veqF n) m m'
  | _ + 1, _, _ => false

/-- `reflect.DeepEqual` on values: structural equality.  The fuel is an
artifact of the embedding; at any fuel exceeding the operands' depth the
function decides structural equality exactly (insufficient fuel yields
`false`).  The evaluator passes its own fuel through. -/
def DeepEqual (fuel : Nat) (a b : Value) : Bool :=
  veqF fuel a b

/-- Read a `{string: string}` document. -/
def getStrPairs : List (String × Value) → Option (List (String × String))
  | [] => some []
  | (k, .s v) :: rest => (getStrPairs rest).map ((k, v) :: ·)
  | _ :: _ => none

/-- A label's value, if present. -/
def labelGet (labels : List (String × String)) (k : String) : Option String :=
  labels.lookup k

/-- Modelled from the spec: one `matchExpressions` requirement
`{key, operator ∈ {In, NotIn, Exists, DoesNotExist}, values}` evaluated
against a label set. -/
def matchRequirement (labels : List (String × String)) (req : List (String × Value)) :
    Except String Bool := do
  let key ← match req.lookup "key" with
    | some (.s k) => pure k
    | _ => .error "invalid matchExpressions key"
  let op ← match req.lookup "operator" with
    | some (.s o) => pure o
    | _ => .error "invalid matchExpressions operator"
  let vals : List String ← match req.lookup "values" with
    | none => pure []
    | some (.list vs) =>
      match vs.mapM (fun v => match v with | .s s => some s | _ => none) with
      | some ss => pure ss
      | none => .error "invalid matchExpressions values"
    | some _ => .error "invalid matchExpressions values"
  match op with
  | "In" =>
    match labelGet labels key with
    | some v => pure (vals.contains v)
    | none => pure false
  | "NotIn" =>
    match labelGet labels key with
    | some v => pure (!vals.contains v)
    | none => pure true
  | "Exists" => pure (labelGet labels key).isSome
  | "DoesNotExist" => pure (labelGet labels key).isNone
  | _ => .error "unknown matchExpressions operator"

/-- Evaluate a list of requirements conjunctively. -/
def matchRequirements (labels : List (String × String)) :
    List Value → Except String Bool
  | [] => .ok true
  | .dict req :: rest => do
    let b ← matchRequirement labels req
    let brest ← matchRequirements labels rest
    .ok (b && brest)
  | _ :: _ => .error "invalid matchExpressions entry"

/-- Modelled from the spec: `MatchLabels` — `matchLabels` entries must all
match exactly, `matchExpressions` requirements must all hold; an empty
selector (neither field yields a requirement) matches nothing. -/
def MatchLabels (labels selector : List (String × Value)) : Except String Bool := do
  let labelPairs ← match getStrPairs labels with
    | some m => pure m
    | none => .error "invalid label set"
  let mlPairs : List (String × String) ← match selector.lookup "matchLabels" with
    | none => pure []
    | some (.dict m) =>
      match getStrPairs m with
      | some ps => pure ps
      | none => .error "invalid matchLabels"
    | some _ => .error "invalid matchLabels"
  let mePairs : List Value ← match selector.lookup "matchExpressions" with
    | none => pure []
    | some (.list vs) => pure vs
    | some _ => .error "invalid matchExpressions"
  if mlPairs.isEmpty && mePairs.isEmpty then
    .ok false
  else do
    let mlOk := mlPairs.all (fun kv =>
      match labelGet labelPairs kv.1 with
      | some v => v = kv.2
      | none => false)
    let meOk ← matchRequirements labelPairs mePairs
    .ok (mlOk && meOk)

/-- Sequential evaluation of the expressions of a `@list` literal
(expression.go lines 142-148): results are collected in order, the first
error aborts. -/
def evalExprList (ev : Expression → Except String Value) :
    List Expression → Except String (List Value)
  | [] => .ok []
  | e :: es => do
    let v ← ev e
    let vs ← evalExprList ev es
    .ok (v :: vs)

/-- Evaluation of a `@dict` literal's fields (expression.go lines
185-196): each value is evaluated and written into the accumulated
document through the path-setter semantics of its key.  (Go iterates the
map in unspecified order; the model iterates in list order, which agrees
whenever no two keys write overlapping paths.) -/
def evalDictFields (ev : Expression → Except String Value) :
    List (String × Expression) → List (String × Value) →
    Except String (List (String × Value))
  | [], acc => .ok acc
  | (k, exp) :: rest, acc => do
    let res ← ev exp
    evalDictFields ev rest (setJSONPath k res acc)

/-- The per-element loop of `@filter` (expression.go lines 233-250): the
condition is evaluated with the element as subject; elements whose
condition is true are kept in order; a condition error or a non-boolean
condition aborts the whole filter. -/
def filterLoop (evSubj : Value → Expression → Except String Value) (cond : Expression) :
    List Value → Except String (List Value)
  | [] => .ok []
  | input :: rest => do
    let res ← evSubj input cond
    let b ← asBool res
    let tail ← filterLoop evSubj cond rest
    .ok (if b then input :: tail else tail)

/-- The per-element loop of `@any` (expression.go lines 282-300): stops at
the first element whose predicate is true. -/
def anyLoop (evSubj : Value → Expression → Except String Value) (exp : Expression) :
    List Value → Except String Bool
  | [] => .ok false
  | input :: rest => do
    let res ← evSubj input exp
    let b ← asBool res
    if b then .ok true else anyLoop evSubj exp rest

/-- The per-element loop of `@all` (expression.go lines 331-349): stops at
the first element whose predicate is false. -/
def allLoop (evSubj : Value → Expression → Except String Value) (exp : Expression) :
    List Value → Except String Bool
  | [] => .ok true
  | input :: rest => do
    let res ← evSubj input exp
    let b ← asBool res
    if b then allLoop evSubj exp rest else .ok false

/-- The per-element loop of `@none` (expression.go lines 380-398): stops
(with result false) at the first element whose predicate is true. -/
def noneLoop (evSubj : Value → Expression → Except String Value) (exp : Expression) :
    List Value → Except String Bool
  | [] => .ok true
  | input :: rest => do
    let res ← evSubj input exp
    let b ← asBool res
    if b then .ok false else noneLoop evSubj exp rest

/-- The per-element loop of `@map` (expression.go lines 423-431): the
function is evaluated with each element as subject, results collected in
order (no unpacking here). -/
def mapLoop (evSubj : Value → Expression → Except String Value) (exp : Expression) :
    List Value → Except String (List Value)
  | [] => .ok []
  | input :: rest => do
    let res ← evSubj input exp
    let tail ← mapLoop evSubj exp rest
    .ok (res :: tail)

/-- `Expression.Evaluate` (expression.go lines 28-773), with fuel for the
nested recursion (fuel exhaustion is an artifact of the embedding, never
reached at sufficient fuel).  Case order follows the source: the empty-op
guard; the terminal switch (`@bool` `@int` `@float` `@string` `@list`
`@dict`, each accepting a stacked argument expression or a literal, with
`@string` resolving JSON-paths and `@list` unpacking one nesting level);
the higher-order switch (`@filter` `@any` `@all` `@none` `@map`, which
evaluate their lambda per element with that element as subject — `@map`
reads `args[0]`/`args[1]` without a length check, so fewer than two
arguments is an index-out-of-range panic); then the argument is
evaluated and the remaining operators are dispatched, an unknown `@…` op
is an error, and a non-`@` op builds the literal one-field document. -/
def evaluate : Nat → Expression → EvalCtx → Except String Value
  | 0, _, _ => .error "evaluation fuel exhausted"
  | n + 1, e, ctx =>
    if e.op = "" then .error "empty operator in expression"
    else
      match e.op with
      | "@bool" =>
        match e.arg with
        | some a => do
          let v ← evaluate n a ctx
          let b ← asBool v
          .ok (.b b)
        | none =>
          match e.lit with
          | some (.b bv) => .ok (.b bv)
          | _ => .error "expected a boolean"
      | "@int" =>
        match e.arg with
        | some a => do
          let v ← evaluate n a ctx
          let k ← asInt v
          .ok (.i k)
        | none =>
          match e.lit with
          | some (.i k) => .ok (.i k)
          | _ => .error "expected an integer"
      | "@float" =>
        match e.arg with
        | some a => do
          let v ← evaluate n a ctx
          let q ← asFloat v
          .ok (.f q)
        | none =>
          match e.lit with
          | some (.f q) => .ok (.f q)
          | some (.i k) => .ok (.f (k : Rat))
          | _ => .error "expected a float"
      | "@string" =>
        match e.arg with
        | some a => do
          let v ← evaluate n a ctx
          let str ← asString v
          .ok (getJSONPath ctx str)
        | none =>
          match e.lit with
          | some (.s str) => .ok (getJSONPath ctx str)
          | _ => .error "expected a string"
      | "@list" =>
        match e.arg with
        | some a => do
          let v ← evaluate n a ctx
          match v with
          | .list vs => .ok (.list (unpackList vs))
          | _ => .error "argument must be a list"
        | none =>
          match e.lit with
          | some (.elist es) => do
            let vs ← evalExprList (fun ex => evaluate n ex ctx) es
            .ok (.list (unpackList vs))
          | _ => .error "argument must be an expression list"
      | "@dict" =>
        match e.arg with
        | some a => do
          let v ← evaluate n a ctx
          match v with
          | .dict m => .ok (.dict m)
          | _ => .error "argument must be a map"
        | none =>
          match e.lit with
          | some (.emap kvs) => do
            let m ← evalDictFields (fun ex => evaluate n ex ctx) kvs []
            .ok (.dict m)
          | _ => .error "argument must be a map literal"
      | "@filter" => do
        let args ← asExpOrList e.arg
        match args with
        | [cond, argexp] =>
          match evaluate n argexp ctx with
          | .error _ => .error "failed to evaluate arguments"
          | .ok rawArg =>
            match asList rawArg with
            | .error _ => .error "invalid arguments: expected a list"
            | .ok list => do
              let vs ← filterLoop
                (fun input ex => evaluate n ex ⟨ctx.object, some input⟩) cond list
              .ok (.list vs)
        | _ => .error "invalid arguments: expected 2 arguments"
      | "@any" => do
        let args ← asExpOrList e.arg
        match args with
        | [exp, argexp] =>
          match evaluate n argexp ctx with
          | .error _ => .error "failed to evaluate arguments"
          | .ok rawArg =>
            match asList rawArg with
            | .error _ => .error "invalid arguments: expected a list"
            | .ok list => do
              let v ← anyLoop
                (fun input ex => evaluate n ex ⟨ctx.object, some input⟩) exp list
              .ok (.b v)
        | _ => .error "invalid arguments: expected 2 arguments"
      | "@all" => do
        let args ← asExpOrList e.arg
        match args with
        | [exp, argexp] =>
          match evaluate n argexp ctx with
          | .error _ => .error "failed to evaluate arguments"
          | .ok rawArg =>
            match asList rawArg with
            | .error _ => .error "invalid arguments: expected a list"
            | .ok list => do
              let v ← allLoop
                (fun input ex => evaluate n ex ⟨ctx.object, some input⟩) exp list
              .ok (.b v)
        | _ => .error "invalid arguments: expected 2 arguments"
      | "@none" => do
        let args ← asExpOrList e.arg
        match args with
        | [exp, argexp] =>
          match evaluate n argexp ctx with
          | .error _ => .error "failed to evaluate arguments"
          | .ok rawArg =>
            match asList rawArg with
            | .error _ => .error "invalid arguments: expected a list"
            | .ok list => do
              let v ← noneLoop
                (fun input ex => evaluate n ex ⟨ctx.object, some input⟩) exp list
              .ok (.b v)
        | _ => .error "invalid arguments: expected 2 arguments"
      | "@map" => do
        let args ← asExpOrList e.arg
        match args with
        | exp :: argexp :: _ =>
          match evaluate n argexp ctx with
          | .error _ => .error "failed to evaluate arguments"
          | .ok rawArg =>
            match asList rawArg with
            | .error _ => .error "invalid arguments: expected a list"
            | .ok list => do
              let vs ← mapLoop
                (fun input ex => evaluate n ex ⟨ctx.object, some input⟩) exp list
              .ok (.list vs)
        | _ => .error "panic: index out of range"
      | _ =>
        match e.arg with
        | none => .error "empty argument list"
        | some a => do
          let arg ← evaluate n a ctx
          if startsWithAt e.op then
            match e.op with
            | "@isnil" =>
              .ok (.b (match arg with | .null => true | _ => false))
            | "@exists" =>
              .ok (.b (match arg with | .null => false | _ => true))
            | "@not" => do
              let b ← asBool arg
              .ok (.b (!b))
            | "@eq" => do
              let args ← asList arg
              match args with
              | [x, y] => .ok (.b (DeepEqual n x y))
              | _ => .error "expected 2 arguments"
            | "@and" => do
              let bs ← asBoolList arg
              .ok (.b (bs.foldl (· && ·) true))
            | "@or" => do
              let bs ← asBoolList arg
              .ok (.b (bs.foldl (· || ·) false))
            | "@lt" => do
              match ← asBinaryIntOrFloatList arg with
              | .inl (x, y) => .ok (.b (x < y))
              | .inr (x, y) => .ok (.b (x < y))
            | "@lte" => do
              match ← asBinaryIntOrFloatList arg with
              | .inl (x, y) => .ok (.b (x ≤ y))
              | .inr (x, y) => .ok (.b (x ≤ y))
            | "@gt" => do
              match ← asBinaryIntOrFloatList arg with
              | .inl (x, y) => .ok (.b (x > y))
              | .inr (x, y) => .ok (.b (x > y))
            | "@gte" => do
              match ← asBinaryIntOrFloatList arg with
              | .inl (x, y) => .ok (.b (x ≥ y))
              | .inr (x, y) => .ok (.b (x ≥ y))
            | "@selector" => do
              let args ← asList arg
              match args with
              | [selRaw, labRaw] =>
                match selRaw, labRaw with
                | .null, _ => .ok (.b false)
                | _, .null => .ok (.b false)
                | _, _ => do
                  let selector ← asObject selRaw
                  let labels ← asObject labRaw
                  let res ← MatchLabels labels selector
                  .ok (.b res)
              | _ => .error "invalid arguments: expected 2 arguments"
            | "@abs" => do
              let q ← asFloat arg
              .ok (.f |q|)
            | "@ceil" => do
              let q ← asFloat arg
              .ok (.f ((q.ceil : Int) : Rat))
            | "@floor" => do
              let q ← asFloat arg
              .ok (.f ((q.floor : Int) : Rat))
            | "@sum" => do
              match ← asIntOrFloatList arg with
              | .inl is => .ok (.i (is.foldl (· + ·) 0))
              | .inr fs => .ok (.f (fs.foldl (· + ·) 0))
            | "@len" => do
              let l ← asList arg
              .ok (.i l.length)
            | "@in" => do
              let args ← asList arg
              match args with
              | [elem, lv] => do
                let list ← asList lv
                .ok (.b (list.any (fun x => DeepEqual n x elem)))
              | _ => .error "expected 2 arguments"
            | "@concat" => do
              let ss ← asStringList arg
              .ok (.s (ss.foldl (· ++ ·) ""))
            | _ => .error "unknown op"
          else
            .ok (.dict [(e.op, arg)])

/- ----------------------------------------------------------------- -/
/- The round-trip fragment and concrete instances                     -/
/- ----------------------------------------------------------------- -/

/-- Whether a `@float` terminal literal survives `json.Marshal` with its
type: an integral float64 is rendered as an integer token and re-parses
as `@int`. -/
def goodFloatLit (e : Expression) : Bool :=
  if e.op = "@float" then
    match e.lit with
    | some (.f q) => !q.isInt
    | _ => true
  else true

/-- All expressions of a list belong to the round-trip fragment. -/
def goodArrWith (g : Expression → Bool) : List Expression → Bool
  | [] => true
  | e :: es => g e && goodArrWith g es

/-- All values of an expression map belong to the round-trip fragment. -/
def goodObjWith (g : Expression → Bool) : List (String × Expression) → Bool
  | [] => true
  | (_, e) :: es => g e && goodObjWith g es

/-- The fragment of expressions on which `MarshalJSON` inverts
`UnmarshalJSON` exactly: no `@any` node (its marshal emits the raw
literal), no `@list`/`@dict` node carrying an argument (their marshal
drops the op), and no `@float` terminal with an integral value (its
marshal emits an integer token).  Fuel bounds the nested recursion. -/
def goodF : Nat → Expression → Bool
  | 0, _ => false
  | n + 1, e =>
    !(e.op == "@any") &&
    !(e.op == "@list" && e.arg.isSome) &&
    !(e.op == "@dict" && e.arg.isSome) &&
    goodFloatLit e &&
    (match e.arg with
     | none => true
     | some a => goodF n a) &&
    (match e.lit with
     | some (.elist es) => goodArrWith (goodF n) es
     | some (.emap kvs) => goodObjWith (goodF n) kvs
     | _ => true)

/-- The evaluation context with no document and no iterated subject. -/
def ctx0 : EvalCtx := ⟨.null, none⟩

/-- The JSON form of `@filter: [{@gt:[$, 3]}, {@list:[1,2,3,4,5]}]`
(spec §8 scenario 4). -/
def jFilterGt : Json :=
  .obj [("@filter", .arr [
    .obj [("@gt", .arr [.str "$", .jint 3])],
    .obj [("@list", .arr [.jint 1, .jint 2, .jint 3, .jint 4, .jint 5])]])]

/-- The `@gt` predicate of the filter scenario, as parsed. -/
def gtSubjExpr : Expression :=
  .mk "@gt" (some (.mk "@list" none (some (.elist
    [.mk "@string" none (some (.s "$")), .mk "@int" none (some (.i 3))])))) none

/-- The `{@list: [1,2,3,4,5]}` argument of the filter scenario, as
parsed (an op-form `@list` whose argument is the literal list). -/
def listArgExpr : Expression :=
  .mk "@list" (some (.mk "@list" none (some (.elist
    [.mk "@int" none (some (.i 1)), .mk "@int" none (some (.i 2)),
     .mk "@int" none (some (.i 3)), .mk "@int" none (some (.i 4)),
     .mk "@int" none (some (.i 5))])))) none

/-- The whole filter scenario expression, as parsed. -/
def filterGtExpr : Expression :=
  .mk "@filter" (some (.mk "@list" none (some (.elist [gtSubjExpr, listArgExpr])))) none

/-- The JSON form `{"@any": [true, [1]]}`. -/
def jAnyCex : Json := .obj [("@any", .arr [.bool true, .arr [.jint 1]])]

/-- `{"@any": [true, [1]]}` as parsed. -/
def eAnyCex : Expression :=
  .mk "@any" (some (.mk "@list" none (some (.elist
    [.mk "@bool" none (some (.b true)),
     .mk "@list" none (some (.elist [.mk "@int" none (some (.i 1))]))])))) none

/-- `{"@map": [["$","$"], [1,2]]}` as parsed: a map whose lambda pairs
each element with itself, so it evaluates to a list of two-element
lists. -/
def mapPairExpr : Expression :=
  .mk "@map" (some (.mk "@list" none (some (.elist
    [.mk "@list" none (some (.elist
       [.mk "@string" none (some (.s "$")), .mk "@string" none (some (.s "$"))])),
     .mk "@list" none (some (.elist
       [.mk "@int" none (some (.i 1)), .mk "@int" none (some (.i 2))]))])))) none

/-- The JSON form `{"@list": {"@map": [["$","$"], [1,2]]}}`. -/
def jListArgCex : Json :=
  .obj [("@list", .obj [("@map", .arr [.arr [.str "$", .str "$"],
    .arr [.jint 1, .jint 2]])])]

/-- The JSON form of the inner `@map` alone. -/
def jMapPair : Json :=
  .obj [("@map", .arr [.arr [.str "$", .str "$"], .arr [.jint 1, .jint 2]])]

/-- `{"@list": {"@map": …}}` as parsed: an op-form `@list` wrapping the
map. -/
def eListArgCex : Expression := .mk "@list" (some mapPairExpr) none

/-- `{"@dict": 3}` as parsed: an op-form `@dict` whose argument is not
map-valued. -/
def eDictArgCex : Expression := .mk "@dict" (some (.mk "@int" none (some (.i 3)))) none

/-- `[[1],[2]]` as parsed: a `@list` literal whose two elements each
evaluate to a singleton list. -/
def listOfListsExpr : Expression :=
  .mk "@list" none (some (.elist
    [.mk "@list" none (some (.elist [.mk "@int" none (some (.i 1))])),
     .mk "@list" none (some (.elist [.mk "@int" none (some (.i 2))]))]))

/-- A round-trip witness input: `{"@eq": ["$.a", 5]}`. -/
def jEqSample : Json := .obj [("@eq", .arr [.str "$.a", .jint 5])]

/-- `{"@eq": ["$.a", 5]}` as parsed. -/
def eEqSample : Expression :=
  .mk "@eq" (some (.mk "@list" none (some (.elist
    [.mk "@string" none (some (.s "$.a")), .mk "@int" none (some (.i 5))])))) none

/-- A delta whose write fails under `cexWrite`. -/
def cexDelta1 : Delta := ⟨.Added, .s "d1"⟩

/-- A delta whose write succeeds under `cexWrite`. -/
def cexDelta2 : Delta := ⟨.Updated, .s "d2"⟩

/-- A write function that fails exactly on `Added` deltas. -/
def cexWrite : Delta → Option String :=
  fun d => match d.typ with
    | .Added => some "write failed"
    | _ => none

/-- A concrete request. -/
def cexReq : Request := ⟨"v1/Pod", "ns", "p", .Added⟩

/-- A pipeline evaluation that always fails. -/
def cexEvalPipeline : Request → Except String (List Delta) :=
  fun _ => .error "eval failed"

/-- Modelled from the spec: a two-source controller config without a
`@join` stage (spec §8 scenario 6). -/
def cexTwoSourceCfg : Config :=
  ⟨[⟨⟨"", "Pod"⟩⟩, ⟨⟨"apps", "Deployment"⟩⟩], ⟨none, []⟩, ⟨⟨"", "View"⟩, "Updater"⟩⟩

/-- The shape of a parsed-`@dict` literal map: not a single-entry map whose
key starts with `@` (such a document parses as an operator instead). -/
def dictShape : List (String × Expression) → Prop
  | [(key, _)] => startsWithAt key = false
  | _ => True

/- ----------------------------------------------------------------- -/
/- Theorems                                                           -/
/- ----------------------------------------------------------------- -/


/-- Claim C1: controller construction fails with a config error (and the
controller is never registered) exactly when the sources list is empty, the
target is the zero value, or there are multiple sources and the pipeline has
no `@join`; for every config with non-empty sources, a non-empty target and
(when needed) a join, all three sanity checks pass. -/
theorem sanityCheck_none_iff (config : Config) :
    sanityCheck config = none ↔
      (config.sources ≠ [] ∧ config.target ≠ emptyTarget ∧
        (1 < config.sources.length → config.pipeline.join ≠ none)) := by
  unfold sanityCheck
  split_ifs with h1 h2 h3
  · simp only [List.length_eq_zero] at h1
    simp [h1]
  · simp [h2]
  · obtain ⟨hlen, hjoin⟩ := h3
    simp only [Option.isNone_iff_eq_none] at hjoin
    constructor
    · intro h; cases h
    · rintro ⟨-, -, himp⟩
      exact absurd hjoin (himp hlen)
  · constructor
    · intro _
      refine ⟨fun hnil => h1 (by simp [hnil]), h2, fun hlen hj => ?_⟩
      exact h3 ⟨hlen, by simp [hj]⟩
    · intro _; rfl

theorem sanityCheck_none_iff_witness :
    sanityCheck cexTwoSourceCfg ≠ none ∧
      sanityCheck ⟨[⟨⟨"", "Pod"⟩⟩], ⟨none, []⟩, ⟨⟨"", "View"⟩, "Updater"⟩⟩ = none := by
  constructor
  · intro h
    exact ((sanityCheck_none_iff cexTwoSourceCfg).mp h).2.2 (by decide) rfl
  · exact (sanityCheck_none_iff _).mpr ⟨by simp, by decide, fun h => absurd h (by decide)⟩

/-- Claim C9: `FakeRuntimeCache.Get` ignores the lookup key — whenever the
single-object store is non-empty it deep-copies the stored object into the
caller's object no matter which key is asked for, and it returns a NotFound
error exactly when the store is empty; `Delete` empties the store regardless
of its argument. -/
theorem fakeCache_get_ignores_key :
    (∀ (c : FakeRuntimeCache) (k : ObjectKey) (o : Value),
        c.Store = some o → c.Get k = Except.ok o) ∧
    (∀ (c : FakeRuntimeCache) (k : ObjectKey),
        (∃ msg, c.Get k = Except.error msg) ↔ c.Store = none) ∧
    (∀ (c : FakeRuntimeCache) (obj : Value) (k : ObjectKey),
        (c.Delete obj).Store = none ∧
        ∃ msg, (c.Delete obj).Get k = Except.error msg) := by
  refine ⟨?_, ?_, ?_⟩
  · intro c k o h; simp [FakeRuntimeCache.Get, h]
  · intro c k
    cases hs : c.Store with
    | none => simp [FakeRuntimeCache.Get, hs]
    | some o => simp [FakeRuntimeCache.Get, hs]
  · intro c obj k
    exact ⟨rfl, ⟨_, rfl⟩⟩

theorem fakeCache_get_ignores_key_witness :
    (FakeRuntimeCache.mk (some (.s "stored"))).Get ("other-ns", "other-name")
      = Except.ok (.s "stored") :=
  fakeCache_get_ignores_key.1 _ ("other-ns", "other-name") _ rfl

/-- Claim C6: the expression `@filter: [{@gt:[$, 3]}, {@list:[1,2,3,4,5]}]`
(parsed from its JSON form) evaluates without error to exactly `[4, 5]`, in
order. -/
theorem filter_gt_evaluates_to_4_5 :
    unmarshalJSON 10 jFilterGt = some filterGtExpr ∧
    evaluate 10 filterGtExpr ctx0 = .ok (.list [.i 4, .i 5]) :=
  ⟨rfl, rfl⟩

/-- Claim C10: unmarshalling the JSON document `""` (the empty string)
fails with an unmarshal error rather than producing a `@string` terminal;
an `@string` terminal arises from a string document only when the string is
non-empty. -/
theorem unmarshal_empty_string :
    (∀ fuel, unmarshalJSON fuel (Json.str "") = none) ∧
    (∀ fuel s e, unmarshalJSON fuel (Json.str s) = some e →
      s ≠ "" ∧ e = .mk "@string" none (some (.s s))) := by
  constructor
  · intro fuel
    cases fuel with
    | zero => rfl
    | succ n => simp [unmarshalJSON]
  · intro fuel s e hp
    cases fuel with
    | zero => simp [unmarshalJSON] at hp
    | succ n =>
      simp only [unmarshalJSON] at hp
      by_cases hs : s = ""
      · subst hs; simp at hp
      · simp only [ne_eq, hs, not_false_iff, if_true, Option.some.injEq] at hp
        exact ⟨hs, hp.symm⟩

theorem unmarshal_empty_string_witness :
    ("x" : String) ≠ "" ∧
      (Expression.mk "@string" none (some (.s "x")))
        = .mk "@string" none (some (.s "x")) :=
  unmarshal_empty_string.2 1 "x" (.mk "@string" none (some (.s "x"))) rfl

/-- Claim C4 counterexample: `unpackList` applied to a list-of-lists with
TWO outer elements does not return the list intact — it returns the first
inner list and discards the second, both directly and through the `@list`
evaluation of the expression parsed from `[[1],[2]]`.  This refutes the
claim that removal happens only for exactly one outer element. -/
theorem unpackList_multi_element_cex :
    unpackList [Value.list [.i 1], Value.list [.i 2]] = [Value.i 1] ∧
    ([Value.i 1] : List Value) ≠ [Value.list [.i 1], Value.list [.i 2]] ∧
    unmarshalJSON 10 (.arr [.arr [.jint 1], .arr [.jint 2]]) = some listOfListsExpr ∧
    evaluate 10 listOfListsExpr ctx0 = .ok (.list [.i 1]) := by
  refine ⟨rfl, ?_, rfl, rfl⟩
  intro h
  exact absurd (congrArg List.length h) (by simp)

/-- Claim C4 amended: `unpackList` removes one level of nesting by
returning the FIRST element whenever that element is itself a list,
discarding any remaining elements; an empty list stays empty; a list whose
head is not a list is returned with all elements intact.  In particular the
spec's singleton list-of-lists case yields the single inner list. -/
theorem unpackList_unpacks_first_list :
    (∀ (l ls : List Value), unpackList (Value.list l :: ls) = l) ∧
    (∀ (v : Value) (ls : List Value), (∀ l, v ≠ Value.list l) →
        unpackList (v :: ls) = v :: ls) ∧
    unpackList ([] : List Value) = [] ∧
    (∀ l : List Value, unpackList [Value.list l] = l) := by
  refine ⟨fun l ls => rfl, ?_, rfl, fun l => rfl⟩
  intro v ls hv
  cases v with
  | list l => exact absurd rfl (hv l)
  | null => rfl
  | b _ => rfl
  | i _ => rfl
  | f _ => rfl
  | s _ => rfl
  | dict _ => rfl

theorem unpackList_unpacks_first_list_witness :
    unpackList [Value.i 7, Value.i 8] = [Value.i 7, Value.i 8] :=
  unpackList_unpacks_first_list.2.1 (Value.i 7) [Value.i 8] (fun _ h => Value.noConfusion h)



set_option maxRecDepth 8000 in
/-- Claim C8 (code bug): `trim` keeps strings of length up to 245
unchanged, but on longer input the code takes `s[0:TrimPrefixSuffixLen-1]`,
producing a 119-character prefix and a 244-character result instead of the
documented 120-character prefix and 245-character total; evaluated here at
a concrete 246-character input. -/
theorem trim_off_by_one_at_246 :
    trim (List.replicate 123 'a' ++ List.replicate 123 'b')
        = List.replicate 119 'a' ++ "[...]".toList ++ List.replicate 120 'b' ∧
    (List.replicate 123 'a' ++ List.replicate 123 'b').length = 246 ∧
    (trim (List.replicate 123 'a' ++ List.replicate 123 'b')).length = 244 ∧
    trim (List.replicate 123 'a' ++ List.replicate 123 'b')
        ≠ List.replicate 120 'a' ++ "[...]".toList ++ List.replicate 120 'b' ∧
    trim (List.replicate 245 'x') = List.replicate 245 'x' := by
  refine ⟨by decide, by decide, by decide, by decide, by decide⟩

/-- Claim C2 counterexample: with a write function that fails on the first
delta of a two-delta fan-out, `processRequest`'s write loop returns the
error immediately: the second delta is never written, refuting the claim
that a write error does not abort the remaining writes. -/
theorem writeDeltas_abort_cex :
    writeDeltas cexWrite [cexDelta1, cexDelta2] = ([cexDelta1], some "write failed") ∧
    cexDelta2 ∉ (writeDeltas cexWrite [cexDelta1, cexDelta2]).1 := by
  refine ⟨rfl, ?_⟩
  intro h
  have h2 : cexDelta2 ∈ [cexDelta1] := h
  have heq : cexDelta2 = cexDelta1 := List.mem_singleton.mp h2
  simp [cexDelta1, cexDelta2, Delta.mk.injEq] at heq

/-- Claim C2 amended: the write loop of `processRequest` writes the deltas
in order and returns at the first failing write — the deltas before and
including the failing one are written, the error is returned to the Start
loop (which reports it and continues), and the deltas after the failure are
not written; when every write succeeds all deltas are written and no error
is returned. -/
theorem writeDeltas_first_error (write : Delta → Option String) :
    (∀ ds : List Delta, (∀ d ∈ ds, write d = none) → writeDeltas write ds = (ds, none)) ∧
    (∀ (pre : List Delta) (d : Delta) (post : List Delta) (e : String),
        (∀ x ∈ pre, write x = none) → write d = some e →
        writeDeltas write (pre ++ d :: post) = (pre ++ [d], some e)) := by
  constructor
  · intro ds
    induction ds with
    | nil => intro _; rfl
    | cons d rest ih =>
      intro h
      have hd := h d (by simp)
      have hr := ih (fun x hx => h x (by simp [hx]))
      simp [writeDeltas, hd, hr]
  · intro pre
    induction pre with
    | nil =>
      intro d post e _ hd
      simp [writeDeltas, hd]
    | cons p rest ih =>
      intro d post e hpre hd
      have hp := hpre p (by simp)
      have hr := ih d post e (fun x hx => hpre x (by simp [hx])) hd
      simp [writeDeltas, hp, hr]

theorem writeDeltas_first_error_witness :
    writeDeltas cexWrite [cexDelta2, cexDelta1, cexDelta2]
      = ([cexDelta2, cexDelta1], some "write failed") := by
  have h := (writeDeltas_first_error cexWrite).2 [cexDelta2] cexDelta1 [cexDelta2] "write failed"
    (by intro x hx; have := List.mem_singleton.mp hx; subst this; rfl) rfl
  exact h

/-- Claim C5: the Start loop never terminates because of a processor
error — over any finite stream of requests followed by cancellation, every
request is processed and the loop runs to the cancellation; a request on
which pipeline evaluation fails produces no target writes and surfaces its
error in the loop's trace. -/
theorem startLoop_survives_errors (evalPipeline : Request → Except String (List Delta))
    (write : Delta → Option String) (reqs : List Request) :
    startLoop (processRequestModel evalPipeline write)
        (reqs.map ControllerEvent.req ++ [ControllerEvent.done])
      = reqs.map (fun r => (r, processRequestModel evalPipeline write r)) ∧
    (∀ r e, evalPipeline r = .error e →
        processRequestModel evalPipeline write r = ([], some e)) := by
  constructor
  · induction reqs with
    | nil => rfl
    | cons r rest ih =>
      simp only [List.map_cons, List.cons_append, startLoop]
      exact congrArg (List.cons (r, processRequestModel evalPipeline write r)) ih
  · intro r e h
    simp [processRequestModel, h]

theorem startLoop_survives_errors_witness :
    startLoop (processRequestModel cexEvalPipeline cexWrite)
        [ControllerEvent.req cexReq, ControllerEvent.done]
      = [(cexReq, ([], some "eval failed"))] ∧
    processRequestModel cexEvalPipeline cexWrite cexReq = ([], some "eval failed") := by
  have h := startLoop_survives_errors cexEvalPipeline cexWrite [cexReq]
  exact ⟨h.1.trans rfl, h.2 cexReq "eval failed" rfl⟩



lemma push_size_le (s : ErrorReporter) (err : String) (c : Bool)
    (h : s.Size ≤ ErrorReporterStackSize) :
    (s.Push err c).Size ≤ ErrorReporterStackSize := by
  unfold ErrorReporter.Push ErrorReporter.Size at *
  split_ifs with hfull
  · simp only [List.length_append, List.length_tail, List.length_cons, List.length_nil]
    simp only [ErrorReporterStackSize] at *
    omega
  · simp only [List.length_append, List.length_cons, List.length_nil]
    simp only [ErrorReporterStackSize] at *
    omega

lemma runOps_size_le : ∀ (ops : List ReporterOp) (s : ErrorReporter),
    s.Size ≤ ErrorReporterStackSize →
    (runReporterOps s ops).Size ≤ ErrorReporterStackSize := by
  intro ops
  induction ops with
  | nil => intro s h; exact h
  | cons op rest ih =>
    intro s h
    refine ih (applyReporterOp s op) ?_
    cases op with
    | push err c => exact push_size_le s err c h
    | pushError err => exact push_size_le s err false h
    | pushCriticalError err => exact push_size_le _ err true h
    | pop =>
      have hpop : (s.Pop).Size ≤ s.Size := by
        unfold ErrorReporter.Pop ErrorReporter.Size
        split_ifs
        · exact le_refl _
        · simp only [List.length_dropLast]
          omega
      exact le_trans hpop h

lemma runOps_append (s : ErrorReporter) (l₁ l₂ : List ReporterOp) :
    runReporterOps s (l₁ ++ l₂) = runReporterOps (runReporterOps s l₁) l₂ := by
  simp [runReporterOps, List.foldl_append]

lemma pushes_stack : ∀ errs : List String,
    (runReporterOps NewErrorReporter (errs.map ReporterOp.pushError)).errorStack
      = errs.drop (errs.length - ErrorReporterStackSize) := by
  intro errs
  induction errs using List.reverseRecOn with
  | nil => rfl
  | append_singleton l e ih =>
    rw [List.map_append, runOps_append]
    show ((runReporterOps NewErrorReporter (l.map ReporterOp.pushError)).PushError e).errorStack = _
    unfold ErrorReporter.PushError ErrorReporter.Push
    split_ifs with hfull
    · -- full stack: l has at least 10 entries
      simp only [ih] at hfull ⊢
      have hlen : ErrorReporterStackSize ≤ l.length := by
        simp only [List.length_drop, ErrorReporterStackSize] at hfull ⊢
        omega
      rw [List.tail_drop]
      rw [List.drop_append_of_le_length (by
        simp only [List.length_append, List.length_cons, List.length_nil,
          ErrorReporterStackSize] at *
        omega)]
      have : l.length - ErrorReporterStackSize + 1 = (l ++ [e]).length - ErrorReporterStackSize := by
        simp only [List.length_append, List.length_cons, List.length_nil, ErrorReporterStackSize] at *
        omega
      rw [this]
    · -- not yet full
      simp only [ih] at hfull ⊢
      have h9 : l.length < ErrorReporterStackSize := by
        by_contra hge
        push_neg at hge
        apply hfull
        simp only [List.length_drop, ErrorReporterStackSize] at *
        omega
      have hd0 : l.length - ErrorReporterStackSize = 0 := by omega
      have hd0' : (l ++ [e]).length - ErrorReporterStackSize = 0 := by
        simp only [List.length_append, List.length_cons, List.length_nil]
        omega
      rw [hd0, hd0']
      simp

/-- Claim C7: the error reporter is a bounded LIFO of the 10 most recent
errors — any sequence of Push/PushError/PushCriticalError/Pop operations
keeps the stack at size at most 10; after each push, Top returns the error
just pushed; a push onto a full stack evicts the oldest entry, and a run of
pushes leaves exactly the last 10 errors in push order. -/
theorem errorReporter_bounded_lifo :
    (∀ ops : List ReporterOp,
        (runReporterOps NewErrorReporter ops).Size ≤ ErrorReporterStackSize) ∧
    (∀ (s : ErrorReporter) (err : String) (critical : Bool),
        (s.Push err critical).Top = some err) ∧
    (∀ (s : ErrorReporter) (err : String) (critical : Bool),
        s.Size = ErrorReporterStackSize →
        (s.Push err critical).errorStack = s.errorStack.tail ++ [err]) ∧
    (∀ errs : List String,
        (runReporterOps NewErrorReporter (errs.map ReporterOp.pushError)).errorStack
          = errs.drop (errs.length - ErrorReporterStackSize)) := by
  refine ⟨fun ops => runOps_size_le ops NewErrorReporter (by simp [NewErrorReporter, ErrorReporter.Size]), ?_, ?_, pushes_stack⟩
  · intro s err c
    unfold ErrorReporter.Push
    split_ifs
    all_goals simp [ErrorReporter.Top, List.getLast?_concat]
  · intro s err c h
    simp only [ErrorReporter.Size] at h
    unfold ErrorReporter.Push
    rw [if_pos h]

theorem errorReporter_bounded_lifo_witness :
    ((⟨["e1", "e2", "e3", "e4", "e5", "e6", "e7", "e8", "e9", "e10"], false⟩ :
        ErrorReporter).Push "e11" false).errorStack
      = ["e2", "e3", "e4", "e5", "e6", "e7", "e8", "e9", "e10", "e11"] := by
  have h := errorReporter_bounded_lifo.2.2.1
    ⟨["e1", "e2", "e3", "e4", "e5", "e6", "e7", "e8", "e9", "e10"], false⟩ "e11" false rfl
  rw [h]
  rfl



/-- Claim C3 counterexample: four parsed expressions whose re-serialized
form does not parse back to a semantically equivalent expression.  A parsed
`@any` marshals its nil literal to `null`, which re-parses as `@bool false`
(true becomes false on the re-parse); the document `2.0` parses to a
`@float` whose marshal is the integer token `2`, re-parsing as `@int` with
a different evaluation result; `{"@list": X}` marshals to `X` alone, and
re-evaluation loses one level of list unpacking; `{"@dict": 3}` marshals to
`3`, turning an evaluation error into a success. -/
theorem marshal_roundtrip_cex :
    (unmarshalJSON 10 jAnyCex = some eAnyCex ∧
     marshalJSON 10 eAnyCex = some Json.null ∧
     unmarshalJSON 10 Json.null = some (.mk "@bool" none (some (.b false))) ∧
     evaluate 10 eAnyCex ctx0 = .ok (.b true) ∧
     evaluate 10 (.mk "@bool" none (some (.b false))) ctx0 = .ok (.b false) ∧
     Value.b true ≠ Value.b false) ∧
    (unmarshalJSON 10 (Json.jfloat 2) = some (.mk "@float" none (some (.f 2))) ∧
     marshalJSON 10 (.mk "@float" none (some (.f 2))) = some (Json.jint 2) ∧
     unmarshalJSON 10 (Json.jint 2) = some (.mk "@int" none (some (.i 2))) ∧
     evaluate 10 (.mk "@float" none (some (.f 2))) ctx0 = .ok (.f 2) ∧
     evaluate 10 (.mk "@int" none (some (.i 2))) ctx0 = .ok (.i 2) ∧
     Value.f 2 ≠ Value.i 2) ∧
    (unmarshalJSON 10 jListArgCex = some eListArgCex ∧
     marshalJSON 10 eListArgCex = some jMapPair ∧
     unmarshalJSON 10 jMapPair = some mapPairExpr ∧
     evaluate 10 eListArgCex ctx0 = .ok (.list [.i 1, .i 1]) ∧
     evaluate 10 mapPairExpr ctx0 = .ok (.list [.list [.i 1, .i 1], .list [.i 2, .i 2]]) ∧
     Value.list [.i 1, .i 1] ≠ Value.list [.list [.i 1, .i 1], .list [.i 2, .i 2]]) ∧
    (unmarshalJSON 10 (.obj [("@dict", .jint 3)]) = some eDictArgCex ∧
     marshalJSON 10 eDictArgCex = some (Json.jint 3) ∧
     evaluate 10 eDictArgCex ctx0 = .error "argument must be a map" ∧
     evaluate 10 (.mk "@int" none (some (.i 3))) ctx0 = .ok (.i 3)) := by
  refine ⟨⟨rfl, rfl, rfl, rfl, rfl, ?_⟩, ⟨rfl, rfl, rfl, rfl, rfl, ?_⟩,
    ⟨rfl, rfl, rfl, rfl, rfl, ?_⟩, ⟨rfl, rfl, rfl, rfl⟩⟩
  · intro h
    simp at h
  · intro h
    cases h
  · intro h
    simp at h



lemma parseArr_rt (p : Json → Option Expression) (m : Expression → Option Json)
    (g : Expression → Bool)
    (IH : ∀ j e, p j = some e → g e = true → ∃ j', m e = some j' ∧ p j' = some e) :
    ∀ (js : List Json) (l : List Expression),
      parseArrWith p js = some l → goodArrWith g l = true →
      ∃ js', marshalArrWith m l = some js' ∧ parseArrWith p js' = some l := by
  intro js
  induction js with
  | nil =>
    intro l hp _
    simp only [parseArrWith, Option.some.injEq] at hp
    subst hp
    exact ⟨[], rfl, rfl⟩
  | cons j rest ih =>
    intro l hp hg
    simp only [parseArrWith] at hp
    cases hj : p j with
    | none => rw [hj] at hp; simp at hp
    | some e =>
      cases hrest : parseArrWith p rest with
      | none => rw [hj, hrest] at hp; simp at hp
      | some lrest =>
        rw [hj, hrest] at hp
        simp only [Option.some.injEq] at hp
        subst hp
        simp only [goodArrWith, Bool.and_eq_true] at hg
        obtain ⟨hge, hgrest⟩ := hg
        obtain ⟨j', hm, hpb⟩ := IH j e hj hge
        obtain ⟨js', hms, hpbs⟩ := ih lrest hrest hgrest
        refine ⟨j' :: js', ?_, ?_⟩
        · simp [marshalArrWith, hm, hms]
        · simp [parseArrWith, hpb, hpbs]

lemma parseObj_rt (p : Json → Option Expression) (m : Expression → Option Json)
    (g : Expression → Bool)
    (IH : ∀ j e, p j = some e → g e = true → ∃ j', m e = some j' ∧ p j' = some e) :
    ∀ (js : List (String × Json)) (kvs : List (String × Expression)),
      parseObjWith p js = some kvs → goodObjWith g kvs = true →
      ∃ js', marshalObjWith m kvs = some js' ∧ parseObjWith p js' = some kvs := by
  intro js
  induction js with
  | nil =>
    intro kvs hp _
    simp only [parseObjWith, Option.some.injEq] at hp
    subst hp
    exact ⟨[], rfl, rfl⟩
  | cons kj rest ih =>
    obtain ⟨k, j⟩ := kj
    intro kvs hp hg
    simp only [parseObjWith] at hp
    cases hj : p j with
    | none => rw [hj] at hp; simp at hp
    | some e =>
      cases hrest : parseObjWith p rest with
      | none => rw [hj, hrest] at hp; simp at hp
      | some lrest =>
        rw [hj, hrest] at hp
        simp only [Option.some.injEq] at hp
        subst hp
        simp only [goodObjWith, Bool.and_eq_true] at hg
        obtain ⟨hge, hgrest⟩ := hg
        obtain ⟨j', hm, hpb⟩ := IH j e hj hge
        obtain ⟨js', hms, hpbs⟩ := ih lrest hrest hgrest
        refine ⟨(k, j') :: js', ?_, ?_⟩
        · simp [marshalObjWith, hm, hms]
        · simp [parseObjWith, hpb, hpbs]

lemma parseObj_values (p : Json → Option Expression) :
    ∀ (js : List (String × Json)) (kvs : List (String × Expression)),
      parseObjWith p js = some kvs →
      ∀ kv ∈ kvs, ∃ jv, p jv = some kv.2 := by
  intro js
  induction js with
  | nil =>
    intro kvs hp kv hmem
    simp only [parseObjWith, Option.some.injEq] at hp
    subst hp
    simp at hmem
  | cons kj rest ih =>
    obtain ⟨k, j⟩ := kj
    intro kvs hp kv hmem
    simp only [parseObjWith] at hp
    cases hj : p j with
    | none => rw [hj] at hp; simp at hp
    | some e =>
      cases hrest : parseObjWith p rest with
      | none => rw [hj, hrest] at hp; simp at hp
      | some lrest =>
        rw [hj, hrest] at hp
        simp only [Option.some.injEq] at hp
        subst hp
        rcases List.mem_cons.mp hmem with heq | hmem'
        · subst heq; exact ⟨j, hj⟩
        · exact ih lrest hrest kv hmem'



lemma marshal_op_arm (m : Nat) (op : String) (v : Expression) (jv' : Json)
    (hat : startsWithAt op = true) (hany : op ≠ "@any") (hlist : op ≠ "@list")
    (hdict : op ≠ "@dict") (hm : marshalJSON m v = some jv') :
    marshalJSON (m + 1) (.mk op (some v) none) = some (.obj [(op, jv')]) := by
  simp only [marshalJSON, Expression.op, Expression.arg, Expression.lit]
  rw [if_neg hany]
  by_cases h1 : op = "@bool"
  · rw [if_pos h1]; simp [hm]
  · rw [if_neg h1]
    by_cases h2 : op = "@int"
    · rw [if_pos h2]; simp [hm]
    · rw [if_neg h2]
      by_cases h3 : op = "@float"
      · rw [if_pos h3]; simp [hm]
      · rw [if_neg h3]
        by_cases h4 : op = "@string"
        · rw [if_pos h4]; simp [hm]
        · rw [if_neg h4, if_neg hlist, if_neg hdict, if_pos hat]
          simp [hm]

lemma marshal_dict_lit (m : Nat) (kvs : List (String × Expression))
    (js' : List (String × Json))
    (hms : marshalObjWith (marshalJSON m) kvs = some js') :
    marshalJSON (m + 1) (.mk "@dict" none (some (.emap kvs))) = some (.obj js') := by
  rw [show marshalJSON (m + 1) (.mk "@dict" none (some (.emap kvs)))
      = (marshalObjWith (marshalJSON m) kvs).map .obj from rfl, hms]
  rfl

lemma reparse_dict (m : Nat) (js' : List (String × Json))
    (kvs : List (String × Expression))
    (hpb : parseObjWith (unmarshalJSON m) js' = some kvs)
    (hshape : dictShape kvs) :
    unmarshalJSON (m + 1) (.obj js') = some (.mk "@dict" none (some (.emap kvs))) := by
  simp only [unmarshalJSON, hpb]
  rcases kvs with _ | ⟨⟨k, v⟩, _ | ⟨kv2, rest2⟩⟩
  · rfl
  · simp only [dictShape] at hshape
    simp [hshape]
  · rfl

lemma goodF_op_arg (m : Nat) (k : String) (v : Expression)
    (hg : goodF (m + 1) (.mk k (some v) none) = true) :
    k ≠ "@any" ∧ k ≠ "@list" ∧ k ≠ "@dict" ∧ goodF m v = true := by
  simp only [goodF, goodFloatLit, Expression.op, Expression.arg, Expression.lit,
    Bool.and_eq_true, Bool.not_eq_true', Option.isSome_some, Bool.and_true,
    beq_eq_false_iff_ne, ne_eq, ite_self] at hg
  obtain ⟨⟨⟨h1, h2⟩, h3⟩, h5⟩ := hg
  exact ⟨h1, h2, h3, h5⟩

lemma goodF_list_lit (m : Nat) (l : List Expression)
    (hg : goodF (m + 1) (.mk "@list" none (some (.elist l))) = true) :
    goodArrWith (goodF m) l = true := by
  simp only [goodF, goodFloatLit, Expression.op, Expression.arg, Expression.lit,
    Bool.and_eq_true] at hg
  exact hg.2

lemma goodF_dict_lit (m : Nat) (kvs : List (String × Expression))
    (hg : goodF (m + 1) (.mk "@dict" none (some (.emap kvs))) = true) :
    goodObjWith (goodF m) kvs = true := by
  simp only [goodF, goodFloatLit, Expression.op, Expression.arg, Expression.lit,
    Bool.and_eq_true] at hg
  exact hg.2

lemma goodF_float_lit (m : Nat) (q : Rat)
    (hg : goodF (m + 1) (.mk "@float" none (some (.f q))) = true) :
    q.isInt = false := by
  simp only [goodF, goodFloatLit, Expression.op, Expression.arg, Expression.lit,
    Bool.and_eq_true, Bool.not_eq_true'] at hg
  have h := hg.1.1.2
  simpa using h

lemma obj_dict_rt (m : Nat) (kvs : List (String × Expression))
    (IH : ∀ j e, unmarshalJSON m j = some e → goodF m e = true →
      ∃ j', marshalJSON m e = some j' ∧ unmarshalJSON m j' = some e)
    (hgood : goodObjWith (goodF m) kvs = true)
    (hshape : dictShape kvs)
    (fs : List (String × Json))
    (hkvs : parseObjWith (unmarshalJSON m) fs = some kvs) :
    ∃ j', marshalJSON (m + 1) (.mk "@dict" none (some (.emap kvs))) = some j' ∧
      unmarshalJSON (m + 1) j' = some (.mk "@dict" none (some (.emap kvs))) := by
  obtain ⟨js', hms, hpbs⟩ :=
    parseObj_rt (unmarshalJSON m) (marshalJSON m) (goodF m) IH fs kvs hkvs hgood
  exact ⟨.obj js', marshal_dict_lit m kvs js' hms, reparse_dict m js' kvs hpbs hshape⟩



/-- Claim C3 amended: for every expression E parsed from a JSON document,
if E contains no `@any` node, no `@list` or `@dict` node carrying an
argument, and no `@float` terminal with an integral value (the `goodF`
fragment), then re-serializing E succeeds and the result parses back to E
itself — syntactic identity, hence the same evaluation result on every
context.  Scalars parse to the `@bool`/`@int`/`@float`/`@string`/`@list`/
`@dict` terminals and a single-key `@`-object parses to that operator, per
the definition of `unmarshalJSON`; marshalling inverts this mapping on the
fragment. -/
theorem expression_roundtrip_good :
    ∀ (n : Nat) (j : Json) (e : Expression),
      unmarshalJSON n j = some e → goodF n e = true →
      ∃ j', marshalJSON n e = some j' ∧ unmarshalJSON n j' = some e := by
  intro n
  induction n with
  | zero => intro j e hp _; simp [unmarshalJSON] at hp
  | succ m IH =>
    intro j e hp hg
    cases j with
    | null =>
      simp only [unmarshalJSON, Option.some.injEq] at hp
      subst hp
      exact ⟨.bool false, rfl, rfl⟩
    | bool b =>
      simp only [unmarshalJSON, Option.some.injEq] at hp
      subst hp
      exact ⟨.bool b, rfl, rfl⟩
    | jint k =>
      simp only [unmarshalJSON, Option.some.injEq] at hp
      subst hp
      exact ⟨.jint k, rfl, rfl⟩
    | jfloat q =>
      simp only [unmarshalJSON, Option.some.injEq] at hp
      subst hp
      have hq : q.isInt = false := goodF_float_lit m q hg
      refine ⟨.jfloat q, ?_, rfl⟩
      rw [show marshalJSON (m + 1) (.mk "@float" none (some (.f q)))
          = some (floatToken q) from rfl]
      simp [floatToken, hq]
    | str s =>
      simp only [unmarshalJSON] at hp
      by_cases hs : s = ""
      · subst hs; simp at hp
      · simp only [ne_eq, hs, not_false_iff, if_true, Option.some.injEq] at hp
        subst hp
        refine ⟨.str s, rfl, ?_⟩
        simp only [unmarshalJSON]
        simp [hs]
    | arr es =>
      simp only [unmarshalJSON] at hp
      obtain ⟨l, hpl, he⟩ := Option.map_eq_some'.mp hp
      subst he
      have hgl : goodArrWith (goodF m) l = true := goodF_list_lit m l hg
      obtain ⟨js', hms, hpbs⟩ :=
        parseArr_rt (unmarshalJSON m) (marshalJSON m) (goodF m) IH es l hpl hgl
      refine ⟨.arr js', ?_, ?_⟩
      · rw [show marshalJSON (m + 1) (.mk "@list" none (some (.elist l)))
            = (marshalArrWith (marshalJSON m) l).map .arr from rfl, hms]
        rfl
      · simp only [unmarshalJSON]
        simp [hpbs]
    | obj fs =>
      simp only [unmarshalJSON] at hp
      cases hkvs : parseObjWith (unmarshalJSON m) fs with
      | none =>
        simp only [hkvs] at hp
        exact Option.noConfusion hp
      | some kvs =>
        rcases kvs with _ | ⟨⟨k, v⟩, _ | ⟨⟨k2, v2⟩, rest2⟩⟩
        · simp only [hkvs, Option.some.injEq] at hp
          subst hp
          exact obj_dict_rt m [] IH (goodF_dict_lit m [] hg) trivial fs hkvs
        · by_cases hat : startsWithAt k
          · simp only [hkvs] at hp
            rw [if_pos hat] at hp
            simp only [Option.some.injEq] at hp
            subst hp
            obtain ⟨hkany, hklist, hkdict, hgv⟩ := goodF_op_arg m k v hg
            obtain ⟨jv, hjv⟩ :=
              parseObj_values (unmarshalJSON m) fs [(k, v)] hkvs (k, v) (by simp)
            obtain ⟨jv', hm', hpb⟩ := IH jv v hjv hgv
            refine ⟨.obj [(k, jv')],
              marshal_op_arm m k v jv' hat hkany hklist hkdict hm', ?_⟩
            simp only [unmarshalJSON, parseObjWith, hpb]
            simp [hat]
          · simp only [hkvs] at hp
            rw [if_neg hat] at hp
            simp only [Option.some.injEq] at hp
            subst hp
            refine obj_dict_rt m [(k, v)] IH (goodF_dict_lit m [(k, v)] hg) ?_ fs hkvs
            simp only [dictShape]
            simpa using hat
        · simp only [hkvs, Option.some.injEq] at hp
          subst hp
          exact obj_dict_rt m ((k, v) :: (k2, v2) :: rest2) IH
            (goodF_dict_lit m _ hg) trivial fs hkvs

theorem expression_roundtrip_good_witness :
    unmarshalJSON 10 jEqSample = some eEqSample ∧
    goodF 10 eEqSample = true ∧
    ∃ j', marshalJSON 10 eEqSample = some j' ∧ unmarshalJSON 10 j' = some eEqSample :=
  ⟨rfl, rfl, expression_roundtrip_good 10 jEqSample eEqSample rfl rfl⟩


end DCR
